import Mathlib

/-!
Verification development for the qadence Laplace-equation PINN script
(qadence_trial.py).  The script trains a differentiable quantum circuit to
approximate the harmonic solution of the 2D Laplace equation on the unit
square.  We shallowly embed the residual-sampler class DomainSampling, the
derivative helper calc_derivative, and the fixed-budget training driver,
and prove / refute the frozen specification claims about them.

Conventions of the embedding:
- a collocation row (one sampled point) is a function Fin d -> Real, where
  the type index d plays the role of the n_inputs field of DomainSampling
  (the width of the rows the net accepts);
- torch.rand output is modelled by an explicit deterministic generator
  (a linear congruential stream) whose outputs provably lie in [0, 1),
  matching the documented contract of torch.rand; manual_seed maps a seed
  deterministically to a generator state;
- the opaque differentiable model is a per-point real function; for the
  interior residual, which needs second derivatives, a model is a
  SmoothModel: the function together with its first and second partial
  derivatives, each certified by a HasDerivAt proof, exactly what the
  autograd engine computes for a twice-differentiable net;
- each sampler method is split into a pure loss on an explicit batch
  (the rand result passed as an argument) and a _run wrapper that draws
  the batch from the generator state and threads the state, returning the
  (unchanged) sampler configuration as well.
-/

/-- Arithmetic mean of a list of reals, as computed by tensor.mean():
sum of the entries divided by their number. -/
noncomputable def mean (l : List ℝ) : ℝ := l.sum / l.length

/-- Embedding of the slice assignment sample[:, j] = v applied to one row:
coordinate j is overwritten with v, every other coordinate is kept. -/
def setCol {d : ℕ} (j : ℕ) (v : ℝ) (r : Fin d → ℝ) : Fin d → ℝ :=
  fun k => if (k : ℕ) = j then v else r k

/-- Embedding of reading column i of one row (sample[:, i]).  The script
only reads columns that exist (i < d); the 0 branch is never reached in
the instantiations considered. -/
def col {d : ℕ} (i : ℕ) (r : Fin d → ℝ) : ℝ :=
  if h : i < d then r ⟨i, h⟩ else 0

/-- State transition of the process-wide pseudo-random generator
(modelling the torch global generator as a 64-bit linear congruential
stream; the spec only relies on determinism and on outputs in [0,1)). -/
def randStream (s : ℕ) : ℕ :=
  (6364136223846793005 * s + 1442695040888963407) % 2 ^ 64

/-- The uniform [0,1) value read off a generator state. -/
noncomputable def randOut (s : ℕ) : ℝ := ((s % 2 ^ 64 : ℕ) : ℝ) / (2 ^ 64 : ℝ)

/-- Embedding of torch.manual_seed: the seed determines the generator
state deterministically. -/
def manual_seed (k : ℕ) : ℕ := k

/-- Embedding of sample = rand(size=(n, d)) from generator state g: an
n-row batch, row i holding the draws i*d, ..., i*d + d - 1 of the
stream (row-major fill), every entry in [0,1). -/
noncomputable def genBatch (n d : ℕ) (g : ℕ) : List (Fin d → ℝ) :=
  (List.range n).map (fun i => fun k : Fin d => randOut (randStream^[i * d + (k : ℕ)] g))

/-- The generator state after drawing an n-by-d batch. -/
def genBatchState (n d : ℕ) (g : ℕ) : ℕ := randStream^[n * d] g

/-- Embedding of the DomainSampling class configuration: the net (an
opaque per-point differentiable model read only through evaluation) and
the collocation batch size n_colpoints.  The n_inputs field is the type
index d, the row width the net accepts. -/
structure DomainSampling (d : ℕ) where
  net : (Fin d → ℝ) → ℝ
  n_colpoints : ℕ

/-- left_boundary, loss on an explicit batch: pin column 0 to 0.0, then
return net(sample).pow(2).mean(). -/
noncomputable def DomainSampling.left_boundary {d : ℕ} (ds : DomainSampling d)
    (sample : List (Fin d → ℝ)) : ℝ :=
  mean (sample.map (fun r => ds.net (setCol 0 0 r) ^ 2))

/-- right_boundary, loss on an explicit batch: pin column 0 to 1.0, then
return net(sample).pow(2).mean(). -/
noncomputable def DomainSampling.right_boundary {d : ℕ} (ds : DomainSampling d)
    (sample : List (Fin d → ℝ)) : ℝ :=
  mean (sample.map (fun r => ds.net (setCol 0 1 r) ^ 2))

/-- top_boundary, loss on an explicit batch: pin column 1 to 1.0, then
return net(sample).pow(2).mean(). -/
noncomputable def DomainSampling.top_boundary {d : ℕ} (ds : DomainSampling d)
    (sample : List (Fin d → ℝ)) : ℝ :=
  mean (sample.map (fun r => ds.net (setCol 1 1 r) ^ 2))

/-- bottom_boundary, loss on an explicit batch: pin column 1 to 0.0, then
return (net(sample) - sin(pi * sample[:, 0])).pow(2).mean().  Note the
column-0 read happens after the pinning, exactly as in the source. -/
noncomputable def DomainSampling.bottom_boundary {d : ℕ} (ds : DomainSampling d)
    (sample : List (Fin d → ℝ)) : ℝ :=
  mean (sample.map (fun r =>
    (ds.net (setCol 1 0 r) - Real.sin (Real.pi * col 0 (setCol 1 0 r))) ^ 2))

/-- left_boundary as called by the driver: draw the batch from the
generator, return the (unchanged) configuration, the loss and the new
generator state. -/
noncomputable def DomainSampling.left_boundary_run {d : ℕ} (ds : DomainSampling d)
    (g : ℕ) : DomainSampling d × ℝ × ℕ :=
  (ds, ds.left_boundary (genBatch ds.n_colpoints d g), genBatchState ds.n_colpoints d g)

/-- right_boundary as called by the driver (batch drawn from the
generator state). -/
noncomputable def DomainSampling.right_boundary_run {d : ℕ} (ds : DomainSampling d)
    (g : ℕ) : DomainSampling d × ℝ × ℕ :=
  (ds, ds.right_boundary (genBatch ds.n_colpoints d g), genBatchState ds.n_colpoints d g)

/-- top_boundary as called by the driver (batch drawn from the generator
state). -/
noncomputable def DomainSampling.top_boundary_run {d : ℕ} (ds : DomainSampling d)
    (g : ℕ) : DomainSampling d × ℝ × ℕ :=
  (ds, ds.top_boundary (genBatch ds.n_colpoints d g), genBatchState ds.n_colpoints d g)

/-- bottom_boundary as called by the driver (batch drawn from the
generator state). -/
noncomputable def DomainSampling.bottom_boundary_run {d : ℕ} (ds : DomainSampling d)
    (g : ℕ) : DomainSampling d × ℝ × ℕ :=
  (ds, ds.bottom_boundary (genBatch ds.n_colpoints d g), genBatchState ds.n_colpoints d g)

/-- A twice differentiable two-variable model, as the autograd engine
sees the net when n_inputs = 2 (the instantiation in the script): the
per-point function u together with its first partial derivatives ux, uy
and second partial derivatives uxx, uxy, uyx, uyy, each certified as the
genuine derivative by a HasDerivAt field.  Reverse-mode automatic
differentiation of such a net computes exactly these functions. -/
structure SmoothModel where
  u : ℝ → ℝ → ℝ
  ux : ℝ → ℝ → ℝ
  uy : ℝ → ℝ → ℝ
  uxx : ℝ → ℝ → ℝ
  uxy : ℝ → ℝ → ℝ
  uyx : ℝ → ℝ → ℝ
  uyy : ℝ → ℝ → ℝ
  hux : ∀ x y, HasDerivAt (fun t => u t y) (ux x y) x
  huy : ∀ x y, HasDerivAt (fun t => u x t) (uy x y) y
  huxx : ∀ x y, HasDerivAt (fun t => ux t y) (uxx x y) x
  huxy : ∀ x y, HasDerivAt (fun t => ux x t) (uxy x y) y
  huyx : ∀ x y, HasDerivAt (fun t => uy t y) (uyx x y) x
  huyy : ∀ x y, HasDerivAt (fun t => uy x t) (uyy x y) y

/-- interior, loss on an explicit batch, embedding the source faithfully.
The source computes
  first_both  = grad(net(sample), sample, grad_outputs=ones, ...)
  second_both = grad(first_both,  sample, grad_outputs=ones, ...)
and grad with grad_outputs=ones returns the gradient of the SUM of all
entries of its outputs argument.  Row i of the batch enters only row i of
each output, so per row:
  first_both[i]  = (ux, uy) at point i             (gradient of sum_i u);
  second_both[i] = gradient at point i of (ux + uy), namely
                   (uxx + uyx, uxy + uyy).
The returned value is therefore the mean over the batch of
  ((uxx + uyx) + (uxy + uyy))^2,
the square of the sum of ALL four second partials, not only the pure
ones. -/
noncomputable def DomainSampling.interior (m : SmoothModel) (sample : List (Fin 2 → ℝ)) : ℝ :=
  mean (sample.map (fun r =>
    ((m.uxx (r 0) (r 1) + m.uyx (r 0) (r 1)) +
     (m.uxy (r 0) (r 1) + m.uyy (r 0) (r 1))) ^ 2))

/-- Stated from the words of the spec, for comparison with the source
embedding interior: the mean squared sum of the two PURE second
derivative components, mean of (uxx + uyy)^2 over the batch. -/
noncomputable def interior_spec (m : SmoothModel) (sample : List (Fin 2 → ℝ)) : ℝ :=
  mean (sample.map (fun r => (m.uxx (r 0) (r 1) + m.uyy (r 0) (r 1)) ^ 2))

/-- interior as called by the driver: the batch is drawn from the
generator with differentiation enabled; the model and the advanced
generator state are returned alongside the loss. -/
noncomputable def interior_run (m : SmoothModel) (n : ℕ) (g : ℕ) :
    SmoothModel × ℝ × ℕ :=
  (m, DomainSampling.interior m (genBatch n 2 g), genBatchState n 2 g)

/-- The analytic reference model of the script, u(x,y) = exp(-pi x) *
sin(pi y), the harmonic function the spec uses as the test model for the
interior residual, packaged with its true partial derivatives. -/
noncomputable def harmonicModel : SmoothModel where
  u := fun x y => Real.exp (-Real.pi * x) * Real.sin (Real.pi * y)
  ux := fun x y => -Real.pi * (Real.exp (-Real.pi * x) * Real.sin (Real.pi * y))
  uy := fun x y => Real.pi * (Real.exp (-Real.pi * x) * Real.cos (Real.pi * y))
  uxx := fun x y => Real.pi ^ 2 * (Real.exp (-Real.pi * x) * Real.sin (Real.pi * y))
  uxy := fun x y => -(Real.pi ^ 2) * (Real.exp (-Real.pi * x) * Real.cos (Real.pi * y))
  uyx := fun x y => -(Real.pi ^ 2) * (Real.exp (-Real.pi * x) * Real.cos (Real.pi * y))
  uyy := fun x y => -(Real.pi ^ 2) * (Real.exp (-Real.pi * x) * Real.sin (Real.pi * y))
  hux := by
    intro x y
    have h0 : HasDerivAt (fun t : ℝ => -Real.pi * t) (-Real.pi) x := by
      simpa using (hasDerivAt_id x).const_mul (-Real.pi)
    have h1 := h0.exp.mul_const (Real.sin (Real.pi * y))
    convert h1 using 1
    ring
  huy := by
    intro x y
    have h0 : HasDerivAt (fun t : ℝ => Real.pi * t) Real.pi y := by
      simpa using (hasDerivAt_id y).const_mul Real.pi
    have h1 := h0.sin.const_mul (Real.exp (-Real.pi * x))
    convert h1 using 1
    ring
  huxx := by
    intro x y
    have h0 : HasDerivAt (fun t : ℝ => -Real.pi * t) (-Real.pi) x := by
      simpa using (hasDerivAt_id x).const_mul (-Real.pi)
    have h1 := (h0.exp.mul_const (Real.sin (Real.pi * y))).const_mul (-Real.pi)
    convert h1 using 1
    ring
  huxy := by
    intro x y
    have h0 : HasDerivAt (fun t : ℝ => Real.pi * t) Real.pi y := by
      simpa using (hasDerivAt_id y).const_mul Real.pi
    have h1 := (h0.sin.const_mul (Real.exp (-Real.pi * x))).const_mul (-Real.pi)
    convert h1 using 1
    ring
  huyx := by
    intro x y
    have h0 : HasDerivAt (fun t : ℝ => -Real.pi * t) (-Real.pi) x := by
      simpa using (hasDerivAt_id x).const_mul (-Real.pi)
    have h1 := (h0.exp.mul_const (Real.cos (Real.pi * y))).const_mul Real.pi
    convert h1 using 1
    ring
  huyy := by
    intro x y
    have h0 : HasDerivAt (fun t : ℝ => Real.pi * t) Real.pi y := by
      simpa using (hasDerivAt_id y).const_mul Real.pi
    have h1 := (h0.cos.const_mul (Real.exp (-Real.pi * x))).const_mul Real.pi
    convert h1 using 1
    ring

/-- A tensor as calc_derivative sees it: a payload together with the
mutable requires_grad flag. -/
structure Tensor (α : Type) where
  val : α
  requires_grad : Bool

/-- The raw torch.autograd.grad call: it succeeds, returning the
derivative dfun applied to the payload, only when the input tensor is
flagged for gradient tracking, and fails (raises) otherwise.  dfun
abstracts the value grad computes from the recorded graph (with
grad_outputs = ones, create_graph and retain_graph set). -/
def gradCall {α β : Type} (dfun : α → β) (t : Tensor α) : Option β :=
  if t.requires_grad then some (dfun t.val) else none

/-- calc_derivative: the defensive fix-up followed by the grad call.  If
the input tensor is not flagged for gradient tracking it is flagged in
place (only the flag changes), then the derivative is requested.  The
returned pair is the caller-visible input tensor after the call and the
grad result. -/
def calc_derivative {α β : Type} (dfun : α → β) (t : Tensor α) :
    Tensor α × Option β :=
  let t2 := if t.requires_grad then t else { t with requires_grad := true }
  (t2, gradCall dfun t2)

/-- Observable phases of one training iteration, in the order the driver
executes them: opt.zero_grad(), the five sampler calls of the loss sum,
loss.backward(), opt.step(). -/
inductive Ev where
  | zero_grad
  | sample_left
  | sample_right
  | sample_top
  | sample_bottom
  | sample_interior
  | backprop
  | opt_step
deriving DecidableEq

/-- The event sequence of one full iteration of the training loop. -/
def epochEvs : List Ev :=
  [Ev.zero_grad, Ev.sample_left, Ev.sample_right, Ev.sample_top,
   Ev.sample_bottom, Ev.sample_interior, Ev.backprop, Ev.opt_step]

/-- epochEvs repeated n times, the event trace of n iterations. -/
def repeatEvs : ℕ → List Ev
  | 0 => []
  | n + 1 => repeatEvs n ++ epochEvs

/-- The mutable state the training loop acts on: the trainable
parameters of the model, the accumulated gradients, the process-wide
random generator state, the last loss scalar that was backpropagated,
and the trace of executed phases. -/
structure TrainState (Θ G : Type) where
  params : Θ
  grads : G
  rng : ℕ
  lastLoss : ℝ
  log : List Ev

/-- The external capabilities the driver composes: the cleared-gradient
value, the five sampler operations (each mapping current parameters and
generator state to a loss and the advanced generator state), gradient
accumulation, the autograd backward pass producing the gradient of the
loss scalar at the current parameters, and the optimizer update. -/
structure Driver (Θ G : Type) where
  zeroG : G
  lossL : Θ → ℕ → ℝ × ℕ
  lossR : Θ → ℕ → ℝ × ℕ
  lossT : Θ → ℕ → ℝ × ℕ
  lossB : Θ → ℕ → ℝ × ℕ
  lossI : Θ → ℕ → ℝ × ℕ
  addG : G → G → G
  bw : Θ → ℝ → G
  upd : Θ → G → Θ

/-- opt.zero_grad(): clear the accumulated gradients. -/
def zeroGradPhase {Θ G : Type} (D : Driver Θ G) (s : TrainState Θ G) :
    TrainState Θ G :=
  { s with grads := D.zeroG, log := s.log ++ [Ev.zero_grad] }

/-- One sampler call: evaluate the loss at the current parameters and
generator state, advance the generator, record the event.  Parameters
and gradients are untouched. -/
def runSampler {Θ G : Type} (f : Θ → ℕ → ℝ × ℕ) (e : Ev)
    (s : TrainState Θ G) : ℝ × TrainState Θ G :=
  ((f s.params s.rng).1,
   { s with rng := (f s.params s.rng).2, log := s.log ++ [e] })

/-- loss.backward(): accumulate the gradient of the loss scalar into the
gradient buffers and remember the scalar. -/
def backwardPhase {Θ G : Type} (D : Driver Θ G) (loss : ℝ)
    (s : TrainState Θ G) : TrainState Θ G :=
  { s with grads := D.addG s.grads (D.bw s.params loss),
           lastLoss := loss,
           log := s.log ++ [Ev.backprop] }

/-- opt.step(): apply one optimizer update to the parameters from the
accumulated gradients. -/
def optStepPhase {Θ G : Type} (D : Driver Θ G) (s : TrainState Θ G) :
    TrainState Θ G :=
  { s with params := D.upd s.params s.grads, log := s.log ++ [Ev.opt_step] }

/-- One iteration of the training loop, in source order:
opt.zero_grad(); loss = left + right + top + bottom + interior;
loss.backward(); opt.step(). -/
def step {Θ G : Type} (D : Driver Θ G) (s : TrainState Θ G) :
    TrainState Θ G :=
  let s0 := zeroGradPhase D s
  let q1 := runSampler D.lossL Ev.sample_left s0
  let q2 := runSampler D.lossR Ev.sample_right q1.2
  let q3 := runSampler D.lossT Ev.sample_top q2.2
  let q4 := runSampler D.lossB Ev.sample_bottom q3.2
  let q5 := runSampler D.lossI Ev.sample_interior q4.2
  let loss := q1.1 + q2.1 + q3.1 + q4.1 + q5.1
  optStepPhase D (backwardPhase D loss q5.2)

/-- for epoch in range(n): one step per epoch, n times. -/
def train {Θ G : Type} (D : Driver Θ G) (n : ℕ) (s : TrainState Θ G) :
    TrainState Θ G :=
  (List.range n).foldl (fun st _ => step D st) s

/-- The training loop of the script: for epoch in range(1000). -/
def training {Θ G : Type} (D : Driver Θ G) (s : TrainState Θ G) :
    TrainState Θ G :=
  train D 1000 s

lemma mean_nonneg {l : List ℝ} (h : ∀ x ∈ l, 0 ≤ x) : 0 ≤ mean l :=
  div_nonneg (List.sum_nonneg h) (Nat.cast_nonneg _)

lemma map_const_eq_replicate {α : Type} (l : List α) (b : ℝ) :
    l.map (fun _ => b) = List.replicate l.length b := by
  induction l with
  | nil => simp
  | cons a t ih => simp [ih, List.replicate_succ]

lemma mean_map_const {α : Type} (l : List α) (b : ℝ) (h : l ≠ []) :
    mean (l.map fun _ => b) = b := by
  have hl : (l.length : ℝ) ≠ 0 :=
    Nat.cast_ne_zero.mpr (fun h0 => h (List.length_eq_zero.mp h0))
  rw [mean, map_const_eq_replicate, List.sum_replicate, List.length_replicate,
    nsmul_eq_mul]
  exact mul_div_cancel_left₀ b hl

lemma randOut_nonneg (s : ℕ) : 0 ≤ randOut s := by
  unfold randOut; positivity

lemma randOut_lt_one (s : ℕ) : randOut s < 1 := by
  unfold randOut
  rw [div_lt_one (by positivity)]
  exact_mod_cast Nat.mod_lt _ (by norm_num)

lemma step_log {Θ G : Type} (D : Driver Θ G) (s : TrainState Θ G) :
    (step D s).log = s.log ++ epochEvs := by
  simp [step, zeroGradPhase, runSampler, backwardPhase, optStepPhase, epochEvs]

lemma train_succ {Θ G : Type} (D : Driver Θ G) (n : ℕ) (s : TrainState Θ G) :
    train D (n + 1) s = step D (train D n s) := by
  simp [train, List.range_succ]

lemma train_log {Θ G : Type} (D : Driver Θ G) (n : ℕ) (s : TrainState Θ G) :
    (train D n s).log = s.log ++ repeatEvs n := by
  induction n with
  | zero => simp [train, repeatEvs]
  | succ n ih =>
      rw [train_succ, step_log, ih, repeatEvs]
      exact List.append_assoc _ _ _

lemma epochEvs_count_opt_step : epochEvs.count Ev.opt_step = 1 := by decide

lemma repeatEvs_count_opt_step (n : ℕ) :
    (repeatEvs n).count Ev.opt_step = n := by
  induction n with
  | zero => simp [repeatEvs]
  | succ n ih =>
      rw [repeatEvs, List.count_append, ih, epochEvs_count_opt_step]

lemma col_setCol {d : ℕ} (i j : ℕ) (v : ℝ) (r : Fin d → ℝ) (h : i ≠ j) :
    col i (setCol j v r) = col i r := by
  unfold col setCol
  by_cases hi : i < d
  · simp [hi, h]
  · simp [hi]

/-- C9: every one of the five sampler operations returns a non-negative
scalar for every model and every batch, being a mean of squares. -/
theorem sampler_losses_nonneg :
    ∀ (d : ℕ) (ds : DomainSampling d) (sample : List (Fin d → ℝ))
      (m : SmoothModel) (sample2 : List (Fin 2 → ℝ)),
      0 ≤ ds.left_boundary sample ∧ 0 ≤ ds.right_boundary sample ∧
      0 ≤ ds.top_boundary sample ∧ 0 ≤ ds.bottom_boundary sample ∧
      0 ≤ DomainSampling.interior m sample2 := by
  intro d ds sample m sample2
  refine ⟨?_, ?_, ?_, ?_, ?_⟩ <;>
  · apply mean_nonneg
    intro x hx
    simp only [List.mem_map] at hx
    obtain ⟨r, hr, rfl⟩ := hx
    exact sq_nonneg _

/-- C5: calc_derivative never fails for lack of the gradient-tracking
flag: it always returns a derivative value, the tensor it hands to the
grad engine is flagged, re-applying the helper to the tensor it returns
changes nothing (the fix-up is idempotent), and an already flagged
tensor is passed through unchanged. -/
theorem calc_derivative_total_idempotent :
    ∀ (α β : Type) (dfun : α → β) (t : Tensor α),
      (calc_derivative dfun t).2 = some (dfun t.val) ∧
      (calc_derivative dfun t).1.requires_grad = true ∧
      calc_derivative dfun ((calc_derivative dfun t).1) =
        calc_derivative dfun t ∧
      (∀ v : α, (calc_derivative dfun ⟨v, true⟩).1 = ⟨v, true⟩) := by
  intro α β dfun t
  obtain ⟨v, f⟩ := t
  refine ⟨?_, ?_, ?_, ?_⟩
  · by_cases h : f = true <;> simp [calc_derivative, gradCall, h]
  · by_cases h : f = true <;> simp [calc_derivative, h]
  · by_cases h : f = true <;> simp [calc_derivative, gradCall, h]
  · intro w; simp [calc_derivative]

/-- C10: the observable side effect of calc_derivative on its caller:
after the call the input tensor is exactly the original payload with the
gradient-tracking flag set to true, so the flag is True afterwards and
nothing else about the tensor changed. -/
theorem calc_derivative_flag_effect :
    ∀ (α β : Type) (dfun : α → β) (t : Tensor α),
      (calc_derivative dfun t).1 = ⟨t.val, true⟩ := by
  intro α β dfun t
  obtain ⟨v, f⟩ := t
  by_cases h : f = true <;> simp [calc_derivative, h]

/-- C4: for a model returning the constant c on every input,
left_boundary, right_boundary and top_boundary each return exactly c
squared, for every sampled batch (sampling-invariant). -/
theorem const_model_boundary_losses :
    ∀ (d : ℕ) (c : ℝ) (nc : ℕ) (sample : List (Fin d → ℝ)),
      c ≠ 0 → sample ≠ [] →
      ((⟨fun _ => c, nc⟩ : DomainSampling d).left_boundary sample = c ^ 2 ∧
       (⟨fun _ => c, nc⟩ : DomainSampling d).right_boundary sample = c ^ 2 ∧
       (⟨fun _ => c, nc⟩ : DomainSampling d).top_boundary sample = c ^ 2) := by
  intro d c nc sample hc hs
  refine ⟨?_, ?_, ?_⟩ <;>
    simpa [DomainSampling.left_boundary, DomainSampling.right_boundary,
      DomainSampling.top_boundary] using mean_map_const sample (c ^ 2) hs

/-- Witness for C4 at c = 1 and a one-row batch. -/
theorem const_model_boundary_losses_witness :
    (1 : ℝ) ≠ 0 ∧ ([fun _ => 0] : List (Fin 2 → ℝ)) ≠ [] ∧
    (⟨fun _ => (1 : ℝ), 1⟩ : DomainSampling 2).left_boundary [fun _ => 0] =
      1 ^ 2 :=
  ⟨one_ne_zero, by simp,
   (const_model_boundary_losses 2 1 1 [fun _ => 0] one_ne_zero (by simp)).1⟩

/-- C2: bottom_boundary returns the mean over the batch of the squared
difference between the per-point model output and sin(pi x) at the same
point, where x is the (unchanged) first coordinate of the sampled point;
with the zero model it is the mean of sin(pi x)^2 over the sampled x
values; and on a one-point batch with sampled x = 0.3 it equals
sin(0.3 pi)^2. -/
theorem bottom_boundary_residual :
    (∀ (d : ℕ) (ds : DomainSampling d) (sample : List (Fin d → ℝ)),
      ds.bottom_boundary sample =
        mean (sample.map fun r =>
          (ds.net (setCol 1 0 r) - Real.sin (Real.pi * col 0 r)) ^ 2)) ∧
    (∀ (d : ℕ) (nc : ℕ) (sample : List (Fin d → ℝ)),
      (⟨fun _ => 0, nc⟩ : DomainSampling d).bottom_boundary sample =
        mean (sample.map fun r => Real.sin (Real.pi * col 0 r) ^ 2)) ∧
    (∀ y : ℝ,
      (⟨fun _ => 0, 1⟩ : DomainSampling 2).bottom_boundary [![0.3, y]] =
        Real.sin (0.3 * Real.pi) ^ 2) := by
  refine ⟨?_, ?_, ?_⟩
  · intro d ds sample
    unfold DomainSampling.bottom_boundary
    congr 1
  · intro d nc sample
    unfold DomainSampling.bottom_boundary
    congr 1
    apply List.map_congr_left
    intro r hr
    rw [col_setCol 0 1 0 r (by norm_num)]
    ring
  · intro y
    unfold DomainSampling.bottom_boundary
    have hc : col 0 (setCol 1 (0 : ℝ) ![0.3, y]) = 0.3 := by
      rw [col_setCol 0 1 0 (![0.3, y]) (by norm_num)]
      simp [col]
    simp only [List.map_cons, List.map_nil, hc]
    simp [mean, mul_comm]

/-- C3: every entry of a freshly drawn batch is in [0,1); the four
boundary pinnings overwrite exactly their pinned coordinate with exactly
0 or 1 (left: column 0 to 0, right: column 0 to 1, top: column 1 to 1,
bottom: column 1 to 0) and leave every other coordinate of every row
unchanged, hence free coordinates stay in [0,1). -/
theorem boundary_batches_pinned :
    ∀ (n d g : ℕ) (r : Fin d → ℝ), r ∈ genBatch n d g → ∀ k : Fin d,
      (0 ≤ r k ∧ r k < 1) ∧
      ((k : ℕ) = 0 → setCol 0 0 r k = 0 ∧ setCol 0 1 r k = 1) ∧
      ((k : ℕ) ≠ 0 → setCol 0 0 r k = r k ∧ setCol 0 1 r k = r k) ∧
      ((k : ℕ) = 1 → setCol 1 1 r k = 1 ∧ setCol 1 0 r k = 0) ∧
      ((k : ℕ) ≠ 1 → setCol 1 1 r k = r k ∧ setCol 1 0 r k = r k) := by
  intro n d g r hr k
  refine ⟨?_, ?_, ?_, ?_, ?_⟩
  · simp only [genBatch, List.mem_map, List.mem_range] at hr
    obtain ⟨i, hi, rfl⟩ := hr
    exact ⟨randOut_nonneg _, randOut_lt_one _⟩
  · intro hk; simp [setCol, hk]
  · intro hk; simp [setCol, hk]
  · intro hk; simp [setCol, hk]
  · intro hk; simp [setCol, hk]

/-- Witness for C3 on the first row drawn after seeding the generator
with state 0, checked at coordinate 0. -/
theorem boundary_batches_pinned_witness :
    (fun k : Fin 2 => randOut (randStream^[0 * 2 + (k : ℕ)] 0)) ∈ genBatch 1 2 0 ∧
    (0 ≤ (fun k : Fin 2 => randOut (randStream^[0 * 2 + (k : ℕ)] 0)) 0 ∧
      (fun k : Fin 2 => randOut (randStream^[0 * 2 + (k : ℕ)] 0)) 0 < 1) ∧
    setCol 0 0 (fun k : Fin 2 => randOut (randStream^[0 * 2 + (k : ℕ)] 0)) 0 = 0 := by
  have hmem : (fun k : Fin 2 => randOut (randStream^[0 * 2 + (k : ℕ)] 0)) ∈ genBatch 1 2 0 := by
    unfold genBatch
    exact List.mem_map.mpr ⟨0, by simp, rfl⟩
  have h := boundary_batches_pinned 1 2 0 _ hmem 0
  exact ⟨hmem, h.1, (h.2.1 rfl).1⟩

/-- C1: the claim fails on the code.  The harmonic test model
u(x,y) = exp(-pi x) sin(pi y) satisfies uxx + uyy = 0 everywhere, so the
mean squared sum of the two pure second derivatives (the value the claim
and the spec describe, interior_spec) is 0 on every batch; but the
source interior, whose second grad call sums ALL components of the first
derivative, returns 4 pi^4, a nonzero value, already on the one-point
batch at the origin. -/
theorem interior_sums_mixed_partials :
    (∀ x y : ℝ, harmonicModel.uxx x y + harmonicModel.uyy x y = 0) ∧
    (∀ sample : List (Fin 2 → ℝ), interior_spec harmonicModel sample = 0) ∧
    DomainSampling.interior harmonicModel [fun _ => 0] = 4 * Real.pi ^ 4 ∧
    4 * Real.pi ^ 4 ≠ 0 := by
  refine ⟨?_, ?_, ?_, ?_⟩
  · intro x y
    simp only [harmonicModel]
    ring
  · intro sample
    unfold interior_spec
    have hz : (sample.map fun r =>
        (harmonicModel.uxx (r 0) (r 1) + harmonicModel.uyy (r 0) (r 1)) ^ 2) =
        sample.map fun _ => (0 : ℝ) := by
      apply List.map_congr_left
      intro r hr
      have h0 : harmonicModel.uxx (r 0) (r 1) + harmonicModel.uyy (r 0) (r 1) = 0 := by
        simp only [harmonicModel]
        ring
      rw [h0]
      ring
    rw [hz, map_const_eq_replicate, mean, List.sum_replicate]
    simp
  · unfold DomainSampling.interior mean
    simp only [harmonicModel, List.map_cons, List.map_nil]
    norm_num [Real.exp_zero, Real.sin_zero, Real.cos_zero]
    ring
  · positivity

/-- C6: the training loop runs exactly 1000 iterations and each
iteration executes, in order, zero_grad, the five sampler calls, one
backward pass and one optimizer step (so exactly 1000 optimizer steps in
total, no early stopping), and the scalar it backpropagates is the sum
of the five sampler results in call order. -/
theorem training_loop_structure :
    ∀ (Θ G : Type) (D : Driver Θ G) (s : TrainState Θ G),
      (training D s).log = s.log ++ repeatEvs 1000 ∧
      (training D s).log.count Ev.opt_step = s.log.count Ev.opt_step + 1000 ∧
      (step D s).lastLoss =
        (D.lossL s.params s.rng).1 +
        (D.lossR s.params (D.lossL s.params s.rng).2).1 +
        (D.lossT s.params (D.lossR s.params (D.lossL s.params s.rng).2).2).1 +
        (D.lossB s.params (D.lossT s.params (D.lossR s.params
          (D.lossL s.params s.rng).2).2).2).1 +
        (D.lossI s.params (D.lossB s.params (D.lossT s.params
          (D.lossR s.params (D.lossL s.params s.rng).2).2).2).2).1 := by
  intro Θ G D s
  refine ⟨train_log D 1000 s, ?_, rfl⟩
  show (train D 1000 s).log.count Ev.opt_step = s.log.count Ev.opt_step + 1000
  rw [train_log, List.count_append, repeatEvs_count_opt_step]

/-- C7: the sampling is deterministic in the generator state: fixing the
process-wide seed to the same value immediately before a sampler call
yields the identical batch and, for the same model, the identical loss
value and post-state, for each of the five operations. -/
theorem sampler_deterministic :
    ∀ (d n k k2 : ℕ) (ds : DomainSampling d) (m : SmoothModel), k = k2 →
      genBatch n d (manual_seed k) = genBatch n d (manual_seed k2) ∧
      ds.left_boundary_run (manual_seed k) = ds.left_boundary_run (manual_seed k2) ∧
      ds.right_boundary_run (manual_seed k) = ds.right_boundary_run (manual_seed k2) ∧
      ds.top_boundary_run (manual_seed k) = ds.top_boundary_run (manual_seed k2) ∧
      ds.bottom_boundary_run (manual_seed k) = ds.bottom_boundary_run (manual_seed k2) ∧
      interior_run m n (manual_seed k) = interior_run m n (manual_seed k2) := by
  intro d n k k2 ds m h
  subst h
  exact ⟨rfl, rfl, rfl, rfl, rfl, rfl⟩

/-- Witness for C7 at seed 42 with the batch shape of the script. -/
theorem sampler_deterministic_witness :
    42 = 42 ∧
    genBatch 100 2 (manual_seed 42) = genBatch 100 2 (manual_seed 42) :=
  ⟨rfl, (sampler_deterministic 2 100 42 42 ⟨fun _ => 0, 100⟩
    harmonicModel rfl).1⟩

/-- C8: no sampler operation mutates the sampler configuration (net,
n_colpoints, n_inputs) or the model: each run returns its configuration
unchanged; and within one driver iteration the parameters change only
through the optimizer update applied to the pre-iteration parameters. -/
theorem sampler_frame_conditions :
    (∀ (d : ℕ) (ds : DomainSampling d) (g : ℕ),
      (ds.left_boundary_run g).1 = ds ∧ (ds.right_boundary_run g).1 = ds ∧
      (ds.top_boundary_run g).1 = ds ∧ (ds.bottom_boundary_run g).1 = ds) ∧
    (∀ (m : SmoothModel) (n g : ℕ), (interior_run m n g).1 = m) ∧
    (∀ (Θ G : Type) (D : Driver Θ G) (s : TrainState Θ G),
      ∃ gr : G, (step D s).params = D.upd s.params gr) := by
  refine ⟨?_, ?_, ?_⟩
  · intro d ds g
    exact ⟨rfl, rfl, rfl, rfl⟩
  · intro m n g
    rfl
  · intro Θ G D s
    exact ⟨_, rfl⟩
